import Mathlib

/-!
Verification development for the DICOV2 repository.

The repository contains several near-duplicate implementations of a
Faka'uvea language-learning app.  The two algorithmic cores documented by
the specification are

* the fuzzy "did you mean" matcher, built on a dynamic-programming
  Levenshtein distance (`src/index.tsx` lines 110-133, identical copy in
  `src/unnamed/part_000` lines 63-86, callers at `src/index.tsx`
  lines 1026-1042 / `src/vite.config.ts` lines 1044-1058), and

* the word-search grid packer with selection matching
  (`generateNewGame`/`handleMouseUp` in `src/index.tsx` lines 1688-1811 and
  `setupGame`/`handleMouseUp` in `src/vite.config.ts` lines 1559-1673).

Strings are embedded as `List Char`; JavaScript's mutable 2-D arrays are
embedded as total functions `Nat → Nat → _` updated pointwise; each call of
`Math.random()` is embedded as reading the next value of an arbitrary
stream `rand : Nat → Nat` at an explicitly threaded counter `t`, with
`Math.floor(Math.random() * n)` (for a constant positive `n`) embedded as
`rand t % n`, so that theorems quantified over `rand` cover every possible
sequence of random draws.  The random-comparator shuffle
`[...pool].sort(() => 0.5 - Math.random())` — whose result is just some
rearrangement of the pool — is embedded as an arbitrary function parameter
`shuffle`.
-/

namespace DICOV2

/-! ### Levenshtein distance (src/index.tsx lines 110-133)

The source lower-cases both strings, then runs a rolling one-row dynamic
program over a `costs` array of length `s2.length + 1`.

`levRow x s2rest costs last` is the inner `for (let j = ...)` loop of one
outer iteration (row `i ≥ 1`) with current first-string character `x`:
`costs` is the remainder of the cost array from index `j-1` on, `last` is
`lastValue`; the emitted list collects the row's writes
`costs[j-1] = lastValue` followed by the trailing
`costs[s2.length] = lastValue`. -/
def levRow (x : Char) : List Char → List Nat → Nat → List Nat
  | [], _, last => [last]
  | y :: ys, costs, last =>
      last :: levRow x ys costs.tail
        (if x = y then costs.headD 0
         else min (min (costs.headD 0) last) (costs.tail.headD 0) + 1)

/-- The outer `for (let i = ...)` loop of `levenshteinDistance`: one call of
`levRow` per remaining character of the first string, with `lastValue`
initialised to the row number `i`. -/
def levLoop (s2 : List Char) : List Char → List Nat → Nat → List Nat
  | [], costs, _ => costs
  | x :: xs, costs, i => levLoop s2 xs (levRow x s2 costs (i + 1)) (i + 1)

/-- `levenshteinDistance` from src/index.tsx lines 110-133 (the copy in
src/unnamed/part_000 lines 63-86 is character-for-character identical):
lower-case both strings, initialise `costs[j] = j` (the `i = 0` pass), run
the remaining rows, and return `costs[s2.length]`. -/
def levenshteinDistance (s1 s2 : List Char) : Nat :=
  let t1 := s1.map Char.toLower
  let t2 := s2.map Char.toLower
  (levLoop t2 t1 (List.range (t2.length + 1)) 0).getD t2.length 0

/-- Reference recursive Levenshtein distance; `levRec (x :: xs) (y :: ys)`
mirrors the cell update of the dynamic program (diagonal, left, upper). -/
def levRec : List Char → List Char → Nat
  | [], ys => ys.length
  | _ :: xs, [] => xs.length + 1
  | x :: xs, y :: ys =>
      if x = y then levRec xs ys
      else min (min (levRec xs ys) (levRec (x :: xs) ys)) (levRec xs (y :: ys)) + 1
termination_by a b => a.length + b.length
decreasing_by all_goals (simp only [List.length_cons]; omega)

/-- The row of prefix distances that the `costs` array holds: `specRow u v
rest` lists `levRec u v'` for `v'` ranging over `v` extended by successive
reversed prefixes of `rest`. -/
def specRow (u : List Char) : List Char → List Char → List Nat
  | v, [] => [levRec u v]
  | v, y :: ys => levRec u v :: specRow u (y :: v) ys

theorem levRec_nil_left (ys : List Char) : levRec [] ys = ys.length := by
  cases ys <;> simp [levRec]

theorem levRec_nil_right (xs : List Char) : levRec xs [] = xs.length := by
  cases xs <;> simp [levRec]

theorem levRec_cons_cons (x y : Char) (xs ys : List Char) :
    levRec (x :: xs) (y :: ys) =
      if x = y then levRec xs ys
      else min (min (levRec xs ys) (levRec (x :: xs) ys)) (levRec xs (y :: ys)) + 1 := by
  simp [levRec]

theorem specRow_headD (u v : List Char) (rest : List Char) :
    (specRow u v rest).headD 0 = levRec u v := by
  cases rest <;> simp [specRow]

theorem specRow_tail (u v : List Char) (y : Char) (ys : List Char) :
    (specRow u v (y :: ys)).tail = specRow u (y :: v) ys := by
  simp [specRow]

/-- One inner pass of the dynamic program turns the row of distances for
`u` into the row of distances for `x :: u`. -/
theorem levRow_spec (x : Char) :
    ∀ rest v u, levRow x rest (specRow u v rest) (levRec (x :: u) v) =
      specRow (x :: u) v rest := by
  intro rest
  induction rest with
  | nil => intro v u; simp [levRow, specRow]
  | cons y ys ih =>
      intro v u
      show levRow x (y :: ys) (specRow u v (y :: ys)) (levRec (x :: u) v) =
        specRow (x :: u) v (y :: ys)
      simp only [levRow]
      rw [specRow_tail, specRow_headD, specRow_headD, ← levRec_cons_cons,
        ih (y :: v) u]
      simp [specRow]

/-- The outer loop extends the first-string prefix one character at a time. -/
theorem levLoop_spec (s2 : List Char) :
    ∀ xs u, levLoop s2 xs (specRow u [] s2) u.length =
      specRow (xs.reverse ++ u) [] s2 := by
  intro xs
  induction xs with
  | nil => intro u; simp [levLoop]
  | cons x xs ih =>
      intro u
      have h1 : levRec (x :: u) [] = u.length + 1 := levRec_nil_right _
      have step : levLoop s2 (x :: xs) (specRow u [] s2) u.length =
          levLoop s2 xs (levRow x s2 (specRow u [] s2) (levRec (x :: u) [])) (u.length + 1) := by
        rw [h1]; rfl
      rw [step, levRow_spec]
      have h2 : u.length + 1 = (x :: u).length := rfl
      rw [h2, ih (x :: u)]
      simp [List.reverse_cons, List.append_assoc]

theorem specRow_nil_first : ∀ (rest v : List Char),
    specRow [] v rest = List.range' v.length (rest.length + 1) := by
  intro rest
  induction rest with
  | nil => intro v; simp [specRow, levRec_nil_left, List.range']
  | cons y ys ih =>
      intro v
      simp [specRow, levRec_nil_left, List.range'_succ, ih (y :: v)]

theorem specRow_getD_last : ∀ (rest v u : List Char),
    (specRow u v rest).getD rest.length 0 = levRec u (rest.reverse ++ v) := by
  intro rest
  induction rest with
  | nil => intro v u; simp [specRow]
  | cons y ys ih =>
      intro v u
      have : (specRow u v (y :: ys)).getD (ys.length + 1) 0 =
          (specRow u (y :: v) ys).getD ys.length 0 := by
        simp [specRow]
      simp only [List.length_cons, this, ih (y :: v) u]
      simp [List.append_assoc]

/-- The dynamic program computes `levRec` on the reversed lower-cased
strings. -/
theorem levenshteinDistance_eq (s1 s2 : List Char) :
    levenshteinDistance s1 s2 =
      levRec (s1.map Char.toLower).reverse (s2.map Char.toLower).reverse := by
  have hinit : List.range ((s2.map Char.toLower).length + 1) =
      specRow [] [] (s2.map Char.toLower) := by
    rw [specRow_nil_first]
    simp [List.range_eq_range']
  have hloop := levLoop_spec (s2.map Char.toLower) (s1.map Char.toLower) []
  simp only [List.length_nil, List.append_nil] at hloop
  have hlast := specRow_getD_last (s2.map Char.toLower) [] (s1.map Char.toLower).reverse
  simp only [List.append_nil] at hlast
  show (levLoop (s2.map Char.toLower) (s1.map Char.toLower)
      (List.range ((s2.map Char.toLower).length + 1)) 0).getD (s2.map Char.toLower).length 0 =
    levRec (s1.map Char.toLower).reverse (s2.map Char.toLower).reverse
  rw [hinit, hloop, hlast]

theorem levRec_comm : ∀ (a b : List Char), levRec a b = levRec b a := by
  have key : ∀ n a b, a.length + b.length = n → levRec a b = levRec b a := by
    intro n
    induction n using Nat.strong_induction_on with
    | _ n ih =>
        intro a b hn
        match a, b with
        | [], [] => simp [levRec_nil_left, levRec_nil_right]
        | [], y :: ys => simp [levRec_nil_left, levRec_nil_right]
        | x :: xs, [] => simp [levRec_nil_left, levRec_nil_right]
        | x :: xs, y :: ys =>
            have hn' : xs.length + 1 + (ys.length + 1) = n := by simpa using hn
            rw [levRec_cons_cons, levRec_cons_cons]
            have e1 : levRec xs ys = levRec ys xs := by
              apply ih (xs.length + ys.length) (by omega) _ _ rfl
            have e2 : levRec (x :: xs) ys = levRec ys (x :: xs) := by
              apply ih ((x :: xs).length + ys.length)
                (by simp only [List.length_cons]; omega) _ _ rfl
            have e3 : levRec xs (y :: ys) = levRec (y :: ys) xs := by
              apply ih (xs.length + (y :: ys).length)
                (by simp only [List.length_cons]; omega) _ _ rfl
            by_cases hxy : x = y
            · simp [hxy, e1]
            · have hyx : ¬ y = x := fun h => hxy h.symm
              simp only [if_neg hxy, if_neg hyx, e1, e2, e3]
              omega
  exact fun a b => key (a.length + b.length) a b rfl

theorem levRec_self : ∀ a : List Char, levRec a a = 0 := by
  intro a
  induction a with
  | nil => exact levRec_nil_left []
  | cons x xs ih => rw [levRec_cons_cons, if_pos rfl, ih]

/-- C6: the Levenshtein helper is symmetric, vanishes on equal arguments,
and sends the empty first string to the other string's length. -/
theorem levenshteinDistance_props (a b : List Char) :
    levenshteinDistance a b = levenshteinDistance b a ∧
    levenshteinDistance a a = 0 ∧
    levenshteinDistance [] b = b.length := by
  refine ⟨?_, ?_, ?_⟩
  · rw [levenshteinDistance_eq, levenshteinDistance_eq, levRec_comm]
  · rw [levenshteinDistance_eq, levRec_self]
  · rw [levenshteinDistance_eq]
    simp [levRec_nil_left]

/-! ### Fuzzy matcher (src/index.tsx lines 1026-1042, src/vite.config.ts
lines 1044-1058)

`getSuggestionScan` is the `dictionary.forEach` loop of `getSuggestion`
(src/index.tsx): the running `(bestMatch, minDistance)` pair is `none`
while `bestMatch === null ∧ minDistance === Infinity`; since every computed
distance is a finite number, the JavaScript test
`distance < minDistance && distance < 4` reduces to `distance < 4` in the
`none` state. -/
def getSuggestionScan (q : List Char) : List (List Char) →
    Option (List Char × Nat) → Option (List Char × Nat)
  | [], best => best
  | w :: ws, best =>
      getSuggestionScan q ws
        (match best with
         | none =>
             if levenshteinDistance q w < 4 then some (w, levenshteinDistance q w) else none
         | some (b, m) =>
             if levenshteinDistance q w < m ∧ levenshteinDistance q w < 4 then
               some (w, levenshteinDistance q w)
             else some (b, m))

/-- `getSuggestion` from src/index.tsx lines 1026-1042: guarded by
`searchTerm.length > 2 && filteredDictionary.length === 0`, then the scan
over the dictionary. -/
def getSuggestion (searchTerm : List Char) (filteredDictionary : List (List Char))
    (dictionary : List (List Char)) : Option (List Char) :=
  if 2 < searchTerm.length ∧ filteredDictionary.length = 0 then
    (getSuggestionScan searchTerm dictionary none).map Prod.fst
  else none

/-- The `for (const entry of dictionary)` loop of `suggestedEntry`
(src/vite.config.ts lines 1044-1058); the only difference from the
src/index.tsx loop is the ceiling test `distance <= 3`. -/
def suggestedEntryScan (q : List Char) : List (List Char) →
    Option (List Char × Nat) → Option (List Char × Nat)
  | [], best => best
  | w :: ws, best =>
      suggestedEntryScan q ws
        (match best with
         | none =>
             if levenshteinDistance q w ≤ 3 then some (w, levenshteinDistance q w) else none
         | some (b, m) =>
             if levenshteinDistance q w < m ∧ levenshteinDistance q w ≤ 3 then
               some (w, levenshteinDistance q w)
             else some (b, m))

/-- `suggestedEntry` from src/vite.config.ts lines 1044-1058 (the guard
tests `filteredDictionary.length === 0 && searchTerm.length > 2`). -/
def suggestedEntry (searchTerm : List Char) (filteredDictionary : List (List Char))
    (dictionary : List (List Char)) : Option (List Char) :=
  if filteredDictionary.length = 0 ∧ 2 < searchTerm.length then
    (suggestedEntryScan searchTerm dictionary none).map Prod.fst
  else none

/-- The `DICTIONARY_DATA.forEach` loop of the suggestion effect in
src/unnamed/part_000 lines 577-593: state `(bestMatch, minDistance)`
initialised to `(null, 4)` ("Max distance to consider a suggestion"),
updated whenever `distance < minDistance`. -/
def suggestionScanPart0 (q : List Char) :
    List (List Char) → Option (List Char) × Nat → Option (List Char) × Nat
  | [], st => st
  | w :: ws, st =>
      suggestionScanPart0 q ws
        (if levenshteinDistance q w < st.2 then (some w, levenshteinDistance q w) else st)

/-- The suggestion effect from src/unnamed/part_000 lines 577-593, guarded
by `filteredData.length === 0 && searchTerm.length > 2`. -/
def suggestionPart0 (searchTerm : List Char) (filteredData : List (List Char))
    (dictionary : List (List Char)) : Option (List Char) :=
  if filteredData.length = 0 ∧ 2 < searchTerm.length then
    (suggestionScanPart0 searchTerm dictionary (none, 4)).1
  else none

/-- Helper for the analysis of the scans: first element whose distance is
below the ceiling `c`, improving the ceiling as it scans. -/
def bestBelow (q : List Char) : Nat → List (List Char) → Option (List Char × Nat)
  | _, [] => none
  | c, w :: ws =>
      if levenshteinDistance q w < c then
        match bestBelow q (levenshteinDistance q w) ws with
        | some r => some r
        | none => some (w, levenshteinDistance q w)
      else bestBelow q c ws

/-- Modelled from the spec's words for C2: "the first headword (in
vocabulary iteration order) whose case-insensitive Levenshtein distance to
the query is minimal among all headwords, provided that minimal distance is
at most 3; if every headword is at distance 4 or more ... no suggestion". -/
def specSuggestion (q : List Char) (vocab : List (List Char)) : Option (List Char) :=
  match (vocab.map (fun w => levenshteinDistance q w)).min? with
  | none => none
  | some m =>
      if m ≤ 3 then vocab.find? (fun w => levenshteinDistance q w == m) else none

theorem getSuggestionScan_some (q : List Char) :
    ∀ ws b m, m ≤ 4 → getSuggestionScan q ws (some (b, m)) =
      (match bestBelow q m ws with
       | some r => some r
       | none => some (b, m)) := by
  intro ws
  induction ws with
  | nil => intro b m _; simp [getSuggestionScan, bestBelow]
  | cons w ws ih =>
      intro b m hm
      by_cases h : levenshteinDistance q w < m
      · have h4 : levenshteinDistance q w < 4 := lt_of_lt_of_le h hm
        rw [getSuggestionScan]
        simp only [if_pos (And.intro h h4)]
        rw [ih w (levenshteinDistance q w) (le_of_lt (lt_of_lt_of_le h hm))]
        conv_rhs => rw [bestBelow, if_pos h]
        cases bestBelow q (levenshteinDistance q w) ws <;> simp
      · rw [getSuggestionScan]
        have hnot : ¬ (levenshteinDistance q w < m ∧ levenshteinDistance q w < 4) :=
          fun hc => h hc.1
        simp only [hnot, if_false]
        rw [ih b m hm]
        conv_rhs => rw [bestBelow, if_neg h]

theorem getSuggestionScan_none (q : List Char) :
    ∀ ws, getSuggestionScan q ws none = bestBelow q 4 ws := by
  intro ws
  induction ws with
  | nil => simp [getSuggestionScan, bestBelow]
  | cons w ws ih =>
      by_cases h : levenshteinDistance q w < 4
      · rw [getSuggestionScan]
        simp only [if_pos h]
        rw [getSuggestionScan_some q ws w (levenshteinDistance q w) (le_of_lt h)]
        conv_rhs => rw [bestBelow, if_pos h]
      · rw [getSuggestionScan]
        simp only [if_neg h]
        rw [ih]
        conv_rhs => rw [bestBelow, if_neg h]

theorem suggestedEntryScan_eq (q : List Char) :
    ∀ ws best, suggestedEntryScan q ws best = getSuggestionScan q ws best := by
  intro ws
  induction ws with
  | nil => intro best; simp [suggestedEntryScan, getSuggestionScan]
  | cons w ws ih =>
      intro best
      simp only [suggestedEntryScan, getSuggestionScan]
      rw [ih]
      congr 1
      have h34 : levenshteinDistance q w ≤ 3 ↔ levenshteinDistance q w < 4 :=
        Nat.lt_succ_iff.symm
      cases best with
      | none => simp only [h34]
      | some r =>
          obtain ⟨b, m⟩ := r
          simp only [h34]

theorem bestBelow_eq_none (q : List Char) :
    ∀ ws c, bestBelow q c ws = none ↔ ∀ w ∈ ws, ¬ levenshteinDistance q w < c := by
  intro ws
  induction ws with
  | nil => intro c; simp [bestBelow]
  | cons w ws ih =>
      intro c
      by_cases h : levenshteinDistance q w < c
      · rw [bestBelow, if_pos h]
        constructor
        · intro hc
          cases hb : bestBelow q (levenshteinDistance q w) ws <;> simp [hb] at hc
        · intro hall
          exact absurd h (hall w (List.mem_cons_self w ws))
      · rw [bestBelow, if_neg h]
        rw [ih c]
        constructor
        · intro hall w' hw'
          rcases List.mem_cons.mp hw' with h1 | h2
          · rw [h1]; exact h
          · exact hall w' h2
        · intro hall w' hw'
          exact hall w' (List.mem_cons_of_mem _ hw')

theorem bestBelow_eq_some (q : List Char) :
    ∀ ws c b m, bestBelow q c ws = some (b, m) →
      m = levenshteinDistance q b ∧ m < c ∧
      (∀ w ∈ ws, ¬ levenshteinDistance q w < m) ∧
      (∃ l₁ l₂, ws = l₁ ++ b :: l₂ ∧ ∀ w ∈ l₁, levenshteinDistance q w ≠ m) := by
  intro ws
  induction ws with
  | nil => intro c b m h; simp [bestBelow] at h
  | cons w ws ih =>
      intro c b m h
      by_cases hw : levenshteinDistance q w < c
      · rw [bestBelow, if_pos hw] at h
        cases hb : bestBelow q (levenshteinDistance q w) ws with
        | some r =>
            rw [hb] at h
            obtain rfl : r = (b, m) := by simpa using h
            obtain ⟨hm, hlt, hall, l₁, l₂, hsplit, hpre⟩ := ih _ _ _ hb
            refine ⟨hm, lt_trans hlt hw, ?_, w :: l₁, l₂, by simp [hsplit], ?_⟩
            · intro w' hw'
              rcases List.mem_cons.mp hw' with h1 | h2
              · rw [h1]; omega
              · exact hall w' h2
            · intro w' hw'
              rcases List.mem_cons.mp hw' with h1 | h2
              · rw [h1]; omega
              · exact hpre w' h2
        | none =>
            rw [hb] at h
            simp only [Option.some.injEq, Prod.mk.injEq] at h
            obtain ⟨hbw, hmw⟩ := h
            subst hbw
            subst hmw
            have hnone := (bestBelow_eq_none q ws (levenshteinDistance q w)).mp hb
            refine ⟨rfl, hw, ?_, [], ws, rfl, by simp⟩
            intro w' hw'
            rcases List.mem_cons.mp hw' with h1 | h2
            · rw [h1]; omega
            · exact hnone w' h2
      · rw [bestBelow, if_neg hw] at h
        obtain ⟨hm, hlt, hall, l₁, l₂, hsplit, hpre⟩ := ih _ _ _ h
        refine ⟨hm, hlt, ?_, w :: l₁, l₂, by simp [hsplit], ?_⟩
        · intro w' hw'
          rcases List.mem_cons.mp hw' with h1 | h2
          · rw [h1]; omega
          · exact hall w' h2
        · intro w' hw'
          rcases List.mem_cons.mp hw' with h1 | h2
          · rw [h1]; omega
          · exact hpre w' h2

theorem suggestionScanPart0_eq (q : List Char) :
    ∀ (ws : List (List Char)) (st : Option (List Char) × Nat),
      (suggestionScanPart0 q ws st).1 =
        (match bestBelow q st.2 ws with
         | some r => some r.1
         | none => st.1) := by
  intro ws
  induction ws with
  | nil => intro st; simp [suggestionScanPart0, bestBelow]
  | cons w ws ih =>
      intro st
      rw [suggestionScanPart0]
      by_cases h : levenshteinDistance q w < st.2
      · rw [if_pos h, ih (some w, levenshteinDistance q w)]
        conv_rhs => rw [bestBelow, if_pos h]
        cases bestBelow q (levenshteinDistance q w) ws <;> simp
      · rw [if_neg h, ih st]
        conv_rhs => rw [bestBelow, if_neg h]

/-- The ceiling-4 scan computes exactly the spec's "first headword at
minimal distance, if that minimum is at most 3". -/
theorem bestBelow_spec (q : List Char) (vocab : List (List Char)) :
    (bestBelow q 4 vocab).map Prod.fst = specSuggestion q vocab := by
  cases h : bestBelow q 4 vocab with
  | none =>
      have hall := (bestBelow_eq_none q vocab 4).mp h
      unfold specSuggestion
      cases hmin : (vocab.map (fun w => levenshteinDistance q w)).min? with
      | none => simp
      | some m =>
          obtain ⟨hmem, -⟩ := List.min?_eq_some_iff'.mp hmin
          obtain ⟨w, hw, hwm⟩ := List.mem_map.mp hmem
          have : ¬ m ≤ 3 := by
            have := hall w hw
            omega
          simp [this]
  | some r =>
      obtain ⟨b, m⟩ := r
      obtain ⟨hm, hlt, hall, l₁, l₂, hsplit, hpre⟩ := bestBelow_eq_some q vocab 4 b m h
      have hb_mem : b ∈ vocab := by
        rw [hsplit]
        exact List.mem_append_right _ (List.mem_cons_self _ _)
      have hmin : (vocab.map (fun w => levenshteinDistance q w)).min? = some m := by
        rw [List.min?_eq_some_iff']
        constructor
        · exact List.mem_map.mpr ⟨b, hb_mem, hm.symm⟩
        · intro x hx
          obtain ⟨w, hw, hwx⟩ := List.mem_map.mp hx
          have := hall w hw
          omega
      unfold specSuggestion
      rw [hmin]
      show Option.map Prod.fst (some (b, m)) =
        if m ≤ 3 then vocab.find? (fun w => levenshteinDistance q w == m) else none
      rw [if_pos (show m ≤ 3 by omega)]
      have h₁ : l₁.find? (fun w => levenshteinDistance q w == m) = none := by
        rw [List.find?_eq_none]
        intro w hw
        simp [hpre w hw]
      have h₂ : (b :: l₂).find? (fun w => levenshteinDistance q w == m) = some b :=
        List.find?_cons_of_pos _ (by simp [hm])
      rw [hsplit, List.find?_append, h₁, h₂]
      simp

/-- C2: on a query longer than 2 characters for which the normal search
found nothing, both fuzzy-matcher variants return the first headword at
minimal Levenshtein distance from the query, provided that minimum is at
most 3, and no suggestion when every headword is at distance 4 or more
(ties go to the first headword in iteration order) — i.e. they agree with
the spec-side definition `specSuggestion`. -/
theorem getSuggestion_first_minimal (q : List Char) (filtered vocab : List (List Char))
    (hq : 2 < q.length) (hf : filtered = []) :
    getSuggestion q filtered vocab = specSuggestion q vocab ∧
    suggestedEntry q filtered vocab = specSuggestion q vocab ∧
    suggestionPart0 q filtered vocab = specSuggestion q vocab := by
  subst hf
  refine ⟨?_, ?_, ?_⟩
  · unfold getSuggestion
    rw [if_pos ⟨hq, rfl⟩, getSuggestionScan_none, bestBelow_spec]
  · unfold suggestedEntry
    rw [if_pos ⟨rfl, hq⟩, suggestedEntryScan_eq, getSuggestionScan_none, bestBelow_spec]
  · unfold suggestionPart0
    rw [if_pos ⟨rfl, hq⟩, suggestionScanPart0_eq, ← bestBelow_spec]
    cases bestBelow q 4 vocab <;> simp

/-- Witness for C2 at the spec's own example: query "alof" against a
vocabulary containing "alofa". -/
theorem getSuggestion_first_minimal_witness :
    getSuggestion ['a','l','o','f'] [] [['a','l','o','f','a'], ['h','a','k','e']] =
      specSuggestion ['a','l','o','f'] [['a','l','o','f','a'], ['h','a','k','e']] ∧
    suggestedEntry ['a','l','o','f'] [] [['a','l','o','f','a'], ['h','a','k','e']] =
      specSuggestion ['a','l','o','f'] [['a','l','o','f','a'], ['h','a','k','e']] ∧
    suggestionPart0 ['a','l','o','f'] [] [['a','l','o','f','a'], ['h','a','k','e']] =
      specSuggestion ['a','l','o','f'] [['a','l','o','f','a'], ['h','a','k','e']] :=
  getSuggestion_first_minimal ['a','l','o','f'] [] [['a','l','o','f','a'], ['h','a','k','e']]
    (by decide) rfl

/-- C10: the guard `searchTerm.length > 2 && filteredDictionary.length === 0`
sits inside the suggestion routines themselves, so a query of length at most
2, or one for which the normal search returned at least one result, yields
no suggestion regardless of the vocabulary. -/
theorem getSuggestion_guard (q : List Char) (filtered vocab : List (List Char))
    (h : q.length ≤ 2 ∨ filtered ≠ []) :
    getSuggestion q filtered vocab = none ∧ suggestedEntry q filtered vocab = none ∧
    suggestionPart0 q filtered vocab = none := by
  have hneg : ¬ (2 < q.length ∧ filtered.length = 0) := by
    rcases h with h1 | h2
    · intro hc; omega
    · intro hc
      exact h2 (List.length_eq_zero.mp hc.2)
  have hneg' : ¬ (filtered.length = 0 ∧ 2 < q.length) := fun hc => hneg ⟨hc.2, hc.1⟩
  refine ⟨?_, ?_, ?_⟩
  · unfold getSuggestion
    rw [if_neg hneg]
  · unfold suggestedEntry
    rw [if_neg hneg']
  · unfold suggestionPart0
    rw [if_neg hneg']

/-- Witness for C10: a two-character query yields no suggestion even with a
nonempty vocabulary at distance 1. -/
theorem getSuggestion_guard_witness :
    getSuggestion ['a','b'] [] [['a','b','c']] = none ∧
    suggestedEntry ['a','b'] [] [['a','b','c']] = none ∧
    suggestionPart0 ['a','b'] [] [['a','b','c']] = none :=
  getSuggestion_guard ['a','b'] [] [['a','b','c']] (Or.inl (by decide))

/-! ### Word-search grid packer, src/index.tsx variant (lines 1688-1754)

A grid is a total function `Nat → Nat → GridCell`; `generateNewGame` only
ever reads and writes coordinates below `GRID_SIZE`. -/

/-- The glottal-stop symbol (the apostrophe-like character, code point 39),
last entry of `ALPHABET` (src/index.tsx line 378). -/
def glottal : Char := Char.ofNat 39

/-- `ALPHABET` from src/index.tsx line 378. -/
def ALPHABET : List Char :=
  ['A', 'E', 'F', 'G', 'H', 'I', 'K', 'L', 'M', 'N', 'O', 'S', 'T', 'U', 'V', glottal]

/-- `GridCell` from src/index.tsx line 1691: `{ char, wordRef }`. -/
structure GridCell where
  char : Option Char
  wordRef : Option (List Char)
deriving DecidableEq

/-- The 2-D `newGrid` array. -/
abbrev Grid := Nat → Nat → GridCell

def emptyCell : GridCell := ⟨none, none⟩

def emptyGrid : Grid := fun _ _ => emptyCell

def GRID_SIZE : Nat := 12

def NUM_WORDS : Nat := 6

/-- `directions` from src/index.tsx line 1713, as `(dr, dc)` pairs. -/
def directions : List (Nat × Nat) := [(0, 1), (1, 0), (1, 1)]

/-- The `for (let j = ...)` check loop of one placement attempt
(src/index.tsx lines 1724-1732): succeed iff every remaining cell is
on-grid, and empty or already holding the word's character. -/
def checkCells (g : Grid) (sr sc dr dc : Nat) : List Char → Nat → Bool
  | [], _ => true
  | ch :: rest, j =>
      let r := sr + j * dr
      let c := sc + j * dc
      if GRID_SIZE ≤ r ∨ GRID_SIZE ≤ c then false
      else
        match (g r c).char with
        | some x => if x = ch then checkCells g sr sc dr dc rest (j + 1) else false
        | none => checkCells g sr sc dr dc rest (j + 1)

/-- The `cellsToPlace.forEach` write-back of an accepted attempt
(src/index.tsx line 1735): set `{ char: word[j], wordRef: word }` on every
cell of the run. -/
def placeWord (word : List Char) (sr sc dr dc : Nat) : List Char → Nat → Grid → Grid
  | [], _, g => g
  | ch :: rest, j, g =>
      placeWord word sr sc dr dc rest (j + 1)
        (fun r c => if r = sr + j * dr ∧ c = sc + j * dc then ⟨some ch, some word⟩ else g r c)

/-- The `for (let i = 0; i < 100 && !placed; i++)` attempt loop
(src/index.tsx lines 1717-1739); each attempt draws a direction, a start
row and a start column from the random stream. -/
def tryPlace (rand : Nat → Nat) (word : List Char) : Nat → Nat → Grid → Grid × Bool × Nat
  | 0, t, g => (g, false, t)
  | fuel + 1, t, g =>
      let dir := directions.getD (rand t % directions.length) (0, 1)
      let sr := rand (t + 1) % GRID_SIZE
      let sc := rand (t + 2) % GRID_SIZE
      if checkCells g sr sc dir.1 dir.2 word 0 then
        (placeWord word sr sc dir.1 dir.2 word 0 g, true, t + 3)
      else tryPlace rand word fuel (t + 3) g

/-- The `for (const word of wordsToPlace)` loop (src/index.tsx
lines 1715-1740), collecting `placedWords` in processing order. -/
def placeAll (rand : Nat → Nat) : List (List Char) → Grid → Nat → Grid × List (List Char) × Nat
  | [], g, t => (g, [], t)
  | w :: ws, g, t =>
      let res := tryPlace rand w 100 t g
      let rest := placeAll rand ws res.1 res.2.2
      (rest.1, if res.2.1 then w :: rest.2.1 else rest.2.1, rest.2.2)

/-- Row-major traversal order of the two filler loops
(src/index.tsx lines 1742-1748 and src/vite.config.ts line 1617). -/
def cellList : List (Nat × Nat) :=
  (List.range GRID_SIZE).flatMap (fun r => (List.range GRID_SIZE).map (fun c => (r, c)))

/-- The filler loop of src/index.tsx lines 1742-1748: every cell with no
char yet gets `ALPHABET[Math.floor(Math.random() * ALPHABET.length)]` —
note: the FULL 16-symbol alphabet, glottal stop included. -/
def fillCells (rand : Nat → Nat) : List (Nat × Nat) → Grid → Nat → Grid × Nat
  | [], g, t => (g, t)
  | rc :: rest, g, t =>
      match (g rc.1 rc.2).char with
      | none =>
          fillCells rand rest
            (fun r c =>
              if r = rc.1 ∧ c = rc.2 then
                ⟨some (ALPHABET.getD (rand t % ALPHABET.length) 'A'), none⟩
              else g r c)
            (t + 1)
      | some _ => fillCells rand rest g t

/-- `wordPool` from src/index.tsx line 1701: length at most `GRID_SIZE`,
more than 2, and no space. -/
def wordPool (dictionary : List (List Char)) : List (List Char) :=
  dictionary.filter
    (fun w => decide (w.length ≤ GRID_SIZE ∧ 2 < w.length ∧ ¬ w.contains ' ' = true))

/-- `wordsToPlace` from src/index.tsx lines 1707-1708: shuffle the pool,
keep the first `NUM_WORDS`, upper-case them. -/
def selectedWords (shuffle : List (List Char) → List (List Char))
    (dictionary : List (List Char)) : List (List Char) :=
  ((shuffle (wordPool dictionary)).take NUM_WORDS).map (fun w => w.map Char.toUpper)

/-- `generateNewGame` from src/index.tsx lines 1700-1754.  When the
filtered pool holds fewer than `NUM_WORDS` words the source logs an error
and returns without building a grid (lines 1702-1705), embedded as `none`;
otherwise the result is the filled grid and the `placedWords` win set. -/
def generateNewGame (rand : Nat → Nat) (shuffle : List (List Char) → List (List Char))
    (dictionary : List (List Char)) : Option (Grid × List (List Char)) :=
  if (wordPool dictionary).length < NUM_WORDS then none
  else
    let res := placeAll rand (selectedWords shuffle dictionary) emptyGrid 0
    let fill := fillCells rand cellList res.1 res.2.2
    some (fill.1, res.2.1)

/-- Word `w` is readable on grid `g` from `(sr, sc)` along `(dr, dc)`: each
of its letters sits on-grid at the corresponding cell of the run. -/
def readsAt (g : Grid) (w : List Char) (sr sc dr dc : Nat) : Prop :=
  ∀ j < w.length, sr + j * dr < GRID_SIZE ∧ sc + j * dc < GRID_SIZE ∧
    (g (sr + j * dr) (sc + j * dc)).char = some (w.getD j 'A')

/-- Characters already committed to the grid survive into `g'`. -/
def charMono (g g' : Grid) : Prop :=
  ∀ r c x, (g r c).char = some x → (g' r c).char = some x

theorem charMono_refl (g : Grid) : charMono g g := fun _ _ _ h => h

theorem charMono_trans {g₁ g₂ g₃ : Grid} (h1 : charMono g₁ g₂) (h2 : charMono g₂ g₃) :
    charMono g₁ g₃ := fun r c x h => h2 r c x (h1 r c x h)

theorem readsAt_mono {g g' : Grid} {w : List Char} {sr sc dr dc : Nat}
    (hm : charMono g g') (h : readsAt g w sr sc dr dc) : readsAt g' w sr sc dr dc := by
  intro j hj
  obtain ⟨h1, h2, h3⟩ := h j hj
  exact ⟨h1, h2, hm _ _ _ h3⟩

theorem checkCells_cons_iff (g : Grid) (sr sc dr dc : Nat) (ch : Char) (rest : List Char)
    (j : Nat) :
    checkCells g sr sc dr dc (ch :: rest) j = true ↔
      sr + j * dr < GRID_SIZE ∧ sc + j * dc < GRID_SIZE ∧
      ((g (sr + j * dr) (sc + j * dc)).char = none ∨
        (g (sr + j * dr) (sc + j * dc)).char = some ch) ∧
      checkCells g sr sc dr dc rest (j + 1) = true := by
  rw [checkCells]
  by_cases hb : GRID_SIZE ≤ sr + j * dr ∨ GRID_SIZE ≤ sc + j * dc
  · rw [if_pos hb]
    simp only [Bool.false_eq_true, false_iff]
    intro hc
    omega
  · rw [if_neg hb]
    push_neg at hb
    obtain ⟨hb1, hb2⟩ := hb
    cases hc : (g (sr + j * dr) (sc + j * dc)).char with
    | none => simp [hb1, hb2]
    | some x =>
        by_cases hx : x = ch
        · subst hx
          simp [hb1, hb2]
        · simp [hb1, hb2, hx]

theorem checkCells_iff (g : Grid) (sr sc dr dc : Nat) : ∀ (w : List Char) (j : Nat),
    checkCells g sr sc dr dc w j = true ↔
      ∀ k < w.length,
        sr + (j + k) * dr < GRID_SIZE ∧ sc + (j + k) * dc < GRID_SIZE ∧
        ((g (sr + (j + k) * dr) (sc + (j + k) * dc)).char = none ∨
          (g (sr + (j + k) * dr) (sc + (j + k) * dc)).char = some (w.getD k 'A')) := by
  intro w
  induction w with
  | nil => intro j; simp [checkCells]
  | cons ch rest ih =>
      intro j
      rw [checkCells_cons_iff, ih (j + 1)]
      constructor
      · rintro ⟨h1, h2, h3, h4⟩ k hk
        match k with
        | 0 => simpa using ⟨h1, h2, h3⟩
        | k + 1 =>
            have hk' : k < rest.length := by simpa using hk
            have := h4 k hk'
            have harith : j + 1 + k = j + (k + 1) := by omega
            rw [harith] at this
            simpa using this
      · intro h
        have h0 := h 0 (by simp)
        simp only [Nat.add_zero, List.getD_cons_zero] at h0
        refine ⟨h0.1, h0.2.1, h0.2.2, ?_⟩
        intro k hk
        have := h (k + 1) (by simp; omega)
        have harith : j + (k + 1) = j + 1 + k := by omega
        rw [harith] at this
        simpa using this

theorem checkCells_congr (g₁ g₂ : Grid) (sr sc dr dc : Nat) : ∀ (w : List Char) (j : Nat),
    (∀ k < w.length, g₁ (sr + (j + k) * dr) (sc + (j + k) * dc) =
      g₂ (sr + (j + k) * dr) (sc + (j + k) * dc)) →
    checkCells g₁ sr sc dr dc w j = checkCells g₂ sr sc dr dc w j := by
  intro w
  induction w with
  | nil => intro j _; simp [checkCells]
  | cons ch rest ih =>
      intro j hcong
      have h0 : g₁ (sr + j * dr) (sc + j * dc) = g₂ (sr + j * dr) (sc + j * dc) := by
        simpa using hcong 0 (by simp)
      rw [checkCells, checkCells, h0]
      have hrec : checkCells g₁ sr sc dr dc rest (j + 1) =
          checkCells g₂ sr sc dr dc rest (j + 1) := by
        apply ih (j + 1)
        intro k hk
        have := hcong (k + 1) (by simp; omega)
        have harith : j + (k + 1) = j + 1 + k := by omega
        rwa [harith] at this
      rw [hrec]

theorem placeWord_preserve (word : List Char) (sr sc dr dc : Nat) :
    ∀ (rest : List Char) (j : Nat) (g : Grid) (r c : Nat),
      r + c < sr + sc + j * (dr + dc) →
      placeWord word sr sc dr dc rest j g r c = g r c := by
  intro rest
  induction rest with
  | nil => intro j g r c _; rfl
  | cons ch rest ih =>
      intro j g r c hlt
      rw [placeWord]
      have hlt' : r + c < sr + sc + (j + 1) * (dr + dc) := by
        rw [Nat.succ_mul]
        omega
      rw [ih (j + 1) _ r c hlt']
      have hne : ¬ (r = sr + j * dr ∧ c = sc + j * dc) := by
        rintro ⟨rfl, rfl⟩
        have hmul : j * (dr + dc) = j * dr + j * dc := Nat.mul_add j dr dc
        omega
      rw [if_neg hne]

theorem placeWord_write (word : List Char) (sr sc dr dc : Nat) (hd : 0 < dr + dc) :
    ∀ (rest : List Char) (j : Nat) (g : Grid) (k : Nat), k < rest.length →
      placeWord word sr sc dr dc rest j g (sr + (j + k) * dr) (sc + (j + k) * dc) =
        ⟨some (rest.getD k 'A'), some word⟩ := by
  intro rest
  induction rest with
  | nil => intro j g k hk; simp at hk
  | cons ch rest ih =>
      intro j g k hk
      match k with
      | 0 =>
          simp only [Nat.add_zero, List.getD_cons_zero]
          rw [placeWord]
          have h1 : (j + 1) * (dr + dc) = j * dr + j * dc + (dr + dc) := by ring
          have hlt : (sr + j * dr) + (sc + j * dc) < sr + sc + (j + 1) * (dr + dc) := by
            omega
          rw [placeWord_preserve word sr sc dr dc rest (j + 1) _ _ _ hlt]
          simp
      | k + 1 =>
          rw [placeWord]
          have harith1 : j + (k + 1) = j + 1 + k := by omega
          rw [harith1, ih (j + 1) _ k (by simpa using hk)]
          simp

theorem placeWord_mono (word : List Char) (sr sc dr dc : Nat) (hd : 0 < dr + dc) :
    ∀ (rest : List Char) (j : Nat) (g : Grid),
      checkCells g sr sc dr dc rest j = true →
      charMono g (placeWord word sr sc dr dc rest j g) := by
  intro rest
  induction rest with
  | nil => intro j g _; exact charMono_refl g
  | cons ch rest ih =>
      intro j g hcheck
      obtain ⟨hb1, hb2, hchar, hrest⟩ := (checkCells_cons_iff g sr sc dr dc ch rest j).mp hcheck
      rw [placeWord]
      have hmono1 : charMono g
          (fun r c => if r = sr + j * dr ∧ c = sc + j * dc then ⟨some ch, some word⟩ else g r c) := by
        intro r c x hx
        by_cases hcell : r = sr + j * dr ∧ c = sc + j * dc
        · show (if r = sr + j * dr ∧ c = sc + j * dc then
              (⟨some ch, some word⟩ : GridCell) else g r c).char = some x
          rw [if_pos hcell]
          obtain ⟨rfl, rfl⟩ := hcell
          rcases hchar with h | h
          · rw [hx] at h; cases h
          · rw [hx] at h
            simpa using h.symm
        · show (if r = sr + j * dr ∧ c = sc + j * dc then
              (⟨some ch, some word⟩ : GridCell) else g r c).char = some x
          rw [if_neg hcell]
          exact hx
      refine charMono_trans hmono1 (ih (j + 1) _ ?_)
      rw [← checkCells_congr g _ sr sc dr dc rest (j + 1) ?_]
      · exact hrest
      · intro k hk
        have hne : ¬ (sr + (j + 1 + k) * dr = sr + j * dr ∧
            sc + (j + 1 + k) * dc = sc + j * dc) := by
          rintro ⟨h1, h2⟩
          have e1 : (j + 1 + k) * dr = j * dr := by omega
          have e2 : (j + 1 + k) * dc = j * dc := by omega
          have : (j + 1 + k) * (dr + dc) = j * (dr + dc) := by
            rw [Nat.mul_add, Nat.mul_add, e1, e2]
          have hlt : j * (dr + dc) < (j + 1 + k) * (dr + dc) :=
            Nat.mul_lt_mul_of_lt_of_le (by omega) (le_refl _) hd
          omega
        rw [if_neg hne]

theorem directions_getD_mem (i : Nat) : directions.getD i (0, 1) ∈ directions := by
  rcases i with _ | _ | _ | i <;> simp [directions, List.getD]

theorem directions_pos (dr dc : Nat) (h : (dr, dc) ∈ directions) : 0 < dr + dc := by
  simp only [directions, List.mem_cons, List.mem_singleton, Prod.mk.injEq,
    List.not_mem_nil, or_false] at h
  rcases h with ⟨rfl, rfl⟩ | ⟨rfl, rfl⟩ | ⟨rfl, rfl⟩ <;> omega

theorem tryPlace_mono (rand : Nat → Nat) (word : List Char) :
    ∀ (fuel t : Nat) (g : Grid), charMono g (tryPlace rand word fuel t g).1 := by
  intro fuel
  induction fuel with
  | zero => intro t g; exact charMono_refl g
  | succ fuel ih =>
      intro t g
      rw [tryPlace]
      by_cases hcheck : checkCells g (rand (t + 1) % GRID_SIZE) (rand (t + 2) % GRID_SIZE)
          (directions.getD (rand t % directions.length) (0, 1)).1
          (directions.getD (rand t % directions.length) (0, 1)).2 word 0 = true
      · simp only [hcheck, if_true]
        exact placeWord_mono word _ _ _ _
          (directions_pos _ _ (by
            have := directions_getD_mem (rand t % directions.length)
            simpa using this)) word 0 g hcheck
      · simp only [hcheck, if_false]
        exact ih (t + 3) g

theorem tryPlace_success (rand : Nat → Nat) (word : List Char) :
    ∀ (fuel t : Nat) (g : Grid), (tryPlace rand word fuel t g).2.1 = true →
      ∃ sr sc dr dc, (dr, dc) ∈ directions ∧
        readsAt (tryPlace rand word fuel t g).1 word sr sc dr dc := by
  intro fuel
  induction fuel with
  | zero => intro t g h; simp [tryPlace] at h
  | succ fuel ih =>
      intro t g h
      rw [tryPlace] at h ⊢
      by_cases hcheck : checkCells g (rand (t + 1) % GRID_SIZE) (rand (t + 2) % GRID_SIZE)
          (directions.getD (rand t % directions.length) (0, 1)).1
          (directions.getD (rand t % directions.length) (0, 1)).2 word 0 = true
      · simp only [hcheck, if_true]
        have hdmem : ((directions.getD (rand t % directions.length) (0, 1)).1,
            (directions.getD (rand t % directions.length) (0, 1)).2) ∈ directions := by
          have := directions_getD_mem (rand t % directions.length)
          simpa using this
        have hd := directions_pos _ _ hdmem
        refine ⟨rand (t + 1) % GRID_SIZE, rand (t + 2) % GRID_SIZE,
          (directions.getD (rand t % directions.length) (0, 1)).1,
          (directions.getD (rand t % directions.length) (0, 1)).2, hdmem, ?_⟩
        intro j hj
        have hch := (checkCells_iff g _ _ _ _ word 0).mp hcheck j hj
        simp only [Nat.zero_add] at hch
        refine ⟨hch.1, hch.2.1, ?_⟩
        have hwrite := placeWord_write word (rand (t + 1) % GRID_SIZE)
          (rand (t + 2) % GRID_SIZE)
          (directions.getD (rand t % directions.length) (0, 1)).1
          (directions.getD (rand t % directions.length) (0, 1)).2 hd word 0 g j hj
        simp only [Nat.zero_add] at hwrite
        rw [hwrite]
      · simp only [hcheck, if_false] at h ⊢
        exact ih (t + 3) g h

theorem placeAll_mono (rand : Nat → Nat) :
    ∀ (ws : List (List Char)) (g : Grid) (t : Nat), charMono g (placeAll rand ws g t).1 := by
  intro ws
  induction ws with
  | nil => intro g t; exact charMono_refl g
  | cons w ws ih =>
      intro g t
      rw [placeAll]
      exact charMono_trans (tryPlace_mono rand w 100 t g) (ih _ _)

theorem placeAll_reads (rand : Nat → Nat) :
    ∀ (ws : List (List Char)) (g : Grid) (t : Nat) (w : List Char),
      w ∈ (placeAll rand ws g t).2.1 →
      ∃ sr sc dr dc, (dr, dc) ∈ directions ∧
        readsAt (placeAll rand ws g t).1 w sr sc dr dc := by
  intro ws
  induction ws with
  | nil => intro g t w hw; simp [placeAll] at hw
  | cons w0 ws ih =>
      intro g t w hw
      rw [placeAll] at hw ⊢
      by_cases hok : (tryPlace rand w0 100 t g).2.1 = true
      · simp only [hok, if_true] at hw
        rcases List.mem_cons.mp hw with rfl | hmem
        · obtain ⟨sr, sc, dr, dc, hdmem, hreads⟩ := tryPlace_success rand w 100 t g hok
          exact ⟨sr, sc, dr, dc, hdmem, readsAt_mono (placeAll_mono rand ws _ _) hreads⟩
        · exact ih _ _ w hmem
      · simp only [hok, if_false] at hw
        exact ih _ _ w hw

theorem placeAll_sublist (rand : Nat → Nat) :
    ∀ (ws : List (List Char)) (g : Grid) (t : Nat),
      List.Sublist (placeAll rand ws g t).2.1 ws := by
  intro ws
  induction ws with
  | nil => intro g t; simp [placeAll]
  | cons w ws ih =>
      intro g t
      rw [placeAll]
      by_cases hok : (tryPlace rand w 100 t g).2.1 = true
      · simp only [hok, if_true]
        exact List.Sublist.cons₂ w (ih _ _)
      · simp only [hok, if_false]
        exact List.Sublist.cons w (ih _ _)

theorem fillCells_mono (rand : Nat → Nat) :
    ∀ (cells : List (Nat × Nat)) (g : Grid) (t : Nat),
      charMono g (fillCells rand cells g t).1 := by
  intro cells
  induction cells with
  | nil => intro g t; exact charMono_refl g
  | cons rc rest ih =>
      intro g t
      rw [fillCells]
      cases hc : (g rc.1 rc.2).char with
      | none =>
          refine charMono_trans ?_ (ih _ _)
          intro r c x hx
          show (if r = rc.1 ∧ c = rc.2 then
              (⟨some (ALPHABET.getD (rand t % ALPHABET.length) 'A'), none⟩ : GridCell)
            else g r c).char = some x
          by_cases hcell : r = rc.1 ∧ c = rc.2
          · obtain ⟨rfl, rfl⟩ := hcell
            rw [hx] at hc; cases hc
          · rw [if_neg hcell]
            exact hx
      | some y => exact ih _ _

theorem generateNewGame_eq (rand : Nat → Nat)
    (shuffle : List (List Char) → List (List Char)) (dict : List (List Char))
    (h : ¬ (wordPool dict).length < NUM_WORDS) :
    generateNewGame rand shuffle dict = some
      ((fillCells rand cellList (placeAll rand (selectedWords shuffle dict) emptyGrid 0).1
          (placeAll rand (selectedWords shuffle dict) emptyGrid 0).2.2).1,
        (placeAll rand (selectedWords shuffle dict) emptyGrid 0).2.1) := by
  unfold generateNewGame
  rw [if_neg h]

/-- Shared helper: every word of the win set of a successful
`generateNewGame` run is readable on the final grid along one of the three
supported directions. -/
theorem generateNewGame_reads (rand : Nat → Nat)
    (shuffle : List (List Char) → List (List Char)) (dict : List (List Char))
    (gp : Grid × List (List Char)) (h : generateNewGame rand shuffle dict = some gp)
    (w : List Char) (hw : w ∈ gp.2) :
    ∃ sr sc dr dc, (dr, dc) ∈ directions ∧ readsAt gp.1 w sr sc dr dc := by
  by_cases hlen : (wordPool dict).length < NUM_WORDS
  · unfold generateNewGame at h
    rw [if_pos hlen] at h
    cases h
  · rw [generateNewGame_eq rand shuffle dict hlen] at h
    injection h with h
    subst h
    obtain ⟨sr, sc, dr, dc, hdmem, hreads⟩ :=
      placeAll_reads rand (selectedWords shuffle dict) emptyGrid 0 w hw
    exact ⟨sr, sc, dr, dc, hdmem,
      readsAt_mono (fillCells_mono rand cellList _ _) hreads⟩

/-- C1 (amended, src/index.tsx side): in `generateNewGame`, the win set is
`placedWords`, so every word of the win set was successfully placed and is
readable on the final grid: its letters appear, in order and on-grid, along
its placement direction from its start cell.  (The src/vite.config.ts
variant instead keeps all chosen words in the win set even when their 50
placement attempts are exhausted — see the counterexample.) -/
theorem generateNewGame_win_set_readable (rand : Nat → Nat)
    (shuffle : List (List Char) → List (List Char)) (dict : List (List Char))
    (gp : Grid × List (List Char)) (h : generateNewGame rand shuffle dict = some gp)
    (w : List Char) (hw : w ∈ gp.2) :
    ∃ sr sc dr dc, (dr, dc) ∈ directions ∧ readsAt gp.1 w sr sc dr dc :=
  generateNewGame_reads rand shuffle dict gp h w hw

/-- C9: a packed game places at most `NUM_WORDS` words, and every placed
word comes from the selected candidate set `wordsToPlace`. -/
theorem generateNewGame_win_bound (rand : Nat → Nat)
    (shuffle : List (List Char) → List (List Char)) (dict : List (List Char))
    (gp : Grid × List (List Char)) (h : generateNewGame rand shuffle dict = some gp) :
    gp.2.length ≤ NUM_WORDS ∧ ∀ w ∈ gp.2, w ∈ selectedWords shuffle dict := by
  by_cases hlen : (wordPool dict).length < NUM_WORDS
  · unfold generateNewGame at h
    rw [if_pos hlen] at h
    cases h
  · rw [generateNewGame_eq rand shuffle dict hlen] at h
    injection h with h
    subst h
    have hsub := placeAll_sublist rand (selectedWords shuffle dict) emptyGrid 0
    change (placeAll rand (selectedWords shuffle dict) emptyGrid 0).2.1.length ≤ NUM_WORDS ∧
      ∀ w ∈ (placeAll rand (selectedWords shuffle dict) emptyGrid 0).2.1,
        w ∈ selectedWords shuffle dict
    constructor
    · have h1 := hsub.length_le
      have h2 : (selectedWords shuffle dict).length ≤ NUM_WORDS := by
        simp [selectedWords]
      omega
    · intro w hw
      exact hsub.subset hw

/-- C5: a placement attempt is accepted exactly when every cell of the run
is on-grid and empty or already holding the word's character there; and on
a packed grid any two placed words read compatibly: wherever their runs
share a cell, they carry the same character. -/
theorem packing_conflict_free :
    (∀ (g : Grid) (sr sc dr dc : Nat) (w : List Char),
        checkCells g sr sc dr dc w 0 = true ↔
          ∀ k < w.length, sr + k * dr < GRID_SIZE ∧ sc + k * dc < GRID_SIZE ∧
            ((g (sr + k * dr) (sc + k * dc)).char = none ∨
              (g (sr + k * dr) (sc + k * dc)).char = some (w.getD k 'A'))) ∧
    (∀ (rand : Nat → Nat) (shuffle : List (List Char) → List (List Char))
        (dict : List (List Char)) (gp : Grid × List (List Char)),
      generateNewGame rand shuffle dict = some gp →
      ∀ w₁ ∈ gp.2, ∀ w₂ ∈ gp.2,
        ∃ sr₁ sc₁ dr₁ dc₁ sr₂ sc₂ dr₂ dc₂,
          readsAt gp.1 w₁ sr₁ sc₁ dr₁ dc₁ ∧ readsAt gp.1 w₂ sr₂ sc₂ dr₂ dc₂ ∧
          ∀ j₁ j₂, j₁ < w₁.length → j₂ < w₂.length →
            sr₁ + j₁ * dr₁ = sr₂ + j₂ * dr₂ → sc₁ + j₁ * dc₁ = sc₂ + j₂ * dc₂ →
            w₁.getD j₁ 'A' = w₂.getD j₂ 'A') := by
  constructor
  · intro g sr sc dr dc w
    have := checkCells_iff g sr sc dr dc w 0
    simpa using this
  · intro rand shuffle dict gp h w₁ hw₁ w₂ hw₂
    obtain ⟨sr₁, sc₁, dr₁, dc₁, -, hr₁⟩ := generateNewGame_reads rand shuffle dict gp h w₁ hw₁
    obtain ⟨sr₂, sc₂, dr₂, dc₂, -, hr₂⟩ := generateNewGame_reads rand shuffle dict gp h w₂ hw₂
    refine ⟨sr₁, sc₁, dr₁, dc₁, sr₂, sc₂, dr₂, dc₂, hr₁, hr₂, ?_⟩
    intro j₁ j₂ hj₁ hj₂ he₁ he₂
    have hc₁ := (hr₁ j₁ hj₁).2.2
    have hc₂ := (hr₂ j₂ hj₂).2.2
    rw [he₁, he₂] at hc₁
    rw [hc₁] at hc₂
    exact (Option.some.injEq _ _).mp hc₂

/-- Concrete run used by the witnesses and the C4 counterexample: six
identical (hence mutually compatible) dictionary entries, a random stream
that places all six copies of "ALOFA" left-to-right at the origin
(18 draws), then returns 15 — the index of the glottal stop in `ALPHABET`
— for every filler draw. -/
def rand4 : Nat → Nat := fun t => if t < 18 then 0 else 15

def dict6 : List (List Char) :=
  [['a','l','o','f','a'], ['a','l','o','f','a'], ['a','l','o','f','a'],
   ['a','l','o','f','a'], ['a','l','o','f','a'], ['a','l','o','f','a']]

def gp4 : Grid × List (List Char) := (generateNewGame rand4 id dict6).getD (emptyGrid, [])

theorem gp4_eq : generateNewGame rand4 id dict6 = some gp4 := rfl

def wordALOFA : List Char := ['A', 'L', 'O', 'F', 'A']

/-- Witness for C1's amended theorem: on the concrete run `gp4`, the
placed word "ALOFA" is readable on the packed grid. -/
theorem generateNewGame_win_set_readable_witness :
    ∃ sr sc dr dc, (dr, dc) ∈ directions ∧ readsAt gp4.1 wordALOFA sr sc dr dc :=
  generateNewGame_win_set_readable rand4 id dict6 gp4 gp4_eq wordALOFA (by decide)

/-- Witness for C9 on the concrete run `gp4`. -/
theorem generateNewGame_win_bound_witness :
    gp4.2.length ≤ NUM_WORDS ∧ ∀ w ∈ gp4.2, w ∈ selectedWords id dict6 :=
  generateNewGame_win_bound rand4 id dict6 gp4 gp4_eq

/-- Witness for C5 on the concrete run `gp4`. -/
theorem packing_conflict_free_witness :
    ∃ sr₁ sc₁ dr₁ dc₁ sr₂ sc₂ dr₂ dc₂,
      readsAt gp4.1 wordALOFA sr₁ sc₁ dr₁ dc₁ ∧ readsAt gp4.1 wordALOFA sr₂ sc₂ dr₂ dc₂ ∧
      ∀ j₁ j₂, j₁ < wordALOFA.length → j₂ < wordALOFA.length →
        sr₁ + j₁ * dr₁ = sr₂ + j₂ * dr₂ → sc₁ + j₁ * dc₁ = sc₂ + j₂ * dc₂ →
        wordALOFA.getD j₁ 'A' = wordALOFA.getD j₂ 'A' :=
  packing_conflict_free.2 rand4 id dict6 gp4 gp4_eq
    wordALOFA (by decide) wordALOFA (by decide)

/-- C4 counterexample: `generateNewGame` draws fillers from the FULL
`ALPHABET`, glottal stop included (src/index.tsx line 1745); on the run
`gp4` the cell `(0, 5)` is randomly filled (it belongs to no placed word:
`wordRef = none`) and contains the glottal stop. -/
theorem filler_glottal_cex :
    generateNewGame rand4 id dict6 = some gp4 ∧
    (gp4.1 0 5).wordRef = none ∧ (gp4.1 0 5).char = some glottal :=
  ⟨gp4_eq, rfl, rfl⟩

def dict1 : List (List Char) := [['a','l','o']]

/-- C3 counterexample: with a single eligible word in the pool (fewer than
`NUM_WORDS`), `generateNewGame` refuses to build a grid — it logs an error
and returns with no grid (src/index.tsx lines 1702-1705), embedded as
`none` — instead of degrading to a smaller win set. -/
theorem small_pool_refused_cex : generateNewGame rand4 id dict1 = none := rfl

/-! ### Word-search grid packer, src/vite.config.ts variant (lines 1559-1673)

Cells are `Option Char` before filling and `Char` after; the win set is
`chosenWords`, set before the placement loop (line 1575) and never pruned. -/

def gridSizeV : Nat := 12

/-- Embedding of `Math.floor(Math.random() * n)` where `n` can be `0`
(a word of full grid length gives `gridSize - word.length = 0`, and
`Math.floor(x * 0) = 0`). -/
def randIdx (k n : Nat) : Nat := if n = 0 then 0 else k % n

abbrev VGrid := Nat → Nat → Option Char

/-- The per-direction `canPlace` loop of `setupGame` (src/vite.config.ts
lines 1587-1593 horizontal with `(dr, dc) = (0, 1)`, lines 1601-1607
vertical with `(dr, dc) = (1, 0)`). -/
def canPlaceRun (g : VGrid) (row col dr dc : Nat) : List Char → Nat → Bool
  | [], _ => true
  | ch :: rest, i =>
      match g (row + i * dr) (col + i * dc) with
      | some x => if x = ch then canPlaceRun g row col dr dc rest (i + 1) else false
      | none => canPlaceRun g row col dr dc rest (i + 1)

/-- The per-direction write loop (src/vite.config.ts lines 1595 and 1609). -/
def placeRun (row col dr dc : Nat) : List Char → Nat → VGrid → VGrid
  | [], _, g => g
  | ch :: rest, i, g =>
      placeRun row col dr dc rest (i + 1)
        (fun r c => if r = row + i * dr ∧ c = col + i * dc then some ch else g r c)

/-- The `while (!placed && attempts < 50)` loop (src/vite.config.ts
lines 1582-1614).  `Math.random() > 0.5 ? 'horizontal' : 'vertical'` is
embedded as the parity of the next stream value; for the horizontal case
the column is drawn below `gridSize - word.length`, for the vertical case
the row is. -/
def tryPlaceVite (rand : Nat → Nat) (w : List Char) : Nat → Nat → VGrid → VGrid × Nat
  | 0, t, g => (g, t)
  | fuel + 1, t, g =>
      if rand t % 2 = 0 then
        if canPlaceRun g (rand (t + 1) % gridSizeV) (randIdx (rand (t + 2)) (gridSizeV - w.length))
            0 1 w 0 then
          (placeRun (rand (t + 1) % gridSizeV) (randIdx (rand (t + 2)) (gridSizeV - w.length))
            0 1 w 0 g, t + 3)
        else tryPlaceVite rand w fuel (t + 3) g
      else
        if canPlaceRun g (randIdx (rand (t + 1)) (gridSizeV - w.length)) (rand (t + 2) % gridSizeV)
            1 0 w 0 then
          (placeRun (randIdx (rand (t + 1)) (gridSizeV - w.length)) (rand (t + 2) % gridSizeV)
            1 0 w 0 g, t + 3)
        else tryPlaceVite rand w fuel (t + 3) g

/-- The `chosenWords.forEach` placement loop (src/vite.config.ts
lines 1579-1615). -/
def placeAllVite (rand : Nat → Nat) : List (List Char) → VGrid → Nat → VGrid × Nat
  | [], g, t => (g, t)
  | w :: ws, g, t =>
      placeAllVite rand ws (tryPlaceVite rand w 50 t g).1 (tryPlaceVite rand w 50 t g).2

/-- The `finalGrid` map (src/vite.config.ts lines 1617-1622): each still-null
cell gets `ALPHABET[Math.floor(Math.random() * (ALPHABET.length - 1))]`
("no '" in the source), others keep their character. -/
def fillVite (rand : Nat → Nat) :
    List (Nat × Nat) → VGrid → (Nat → Nat → Char) → Nat → (Nat → Nat → Char) × Nat
  | [], _, acc, t => (acc, t)
  | rc :: rest, g, acc, t =>
      match g rc.1 rc.2 with
      | none =>
          fillVite rand rest g
            (fun r c =>
              if r = rc.1 ∧ c = rc.2 then ALPHABET.getD (rand t % (ALPHABET.length - 1)) 'A'
              else acc r c)
            (t + 1)
      | some _ => fillVite rand rest g acc t

/-- Insertion-order deduplication, the embedding of `[...new Set(xs)]`
(src/vite.config.ts line 1574): keep the first occurrence of each word. -/
def insertionDedup (seen : List (List Char)) : List (List Char) → List (List Char)
  | [] => []
  | w :: ws =>
      if seen.contains w then insertionDedup seen ws
      else w :: insertionDedup (w :: seen) ws

/-- `availableWords` from src/vite.config.ts lines 1570-1572: upper-cased,
length at most `gridSize`, more than 2, no apostrophe, no space. -/
def availableWordsV (dictionary : List (List Char)) : List (List Char) :=
  (dictionary.map (fun w => w.map Char.toUpper)).filter
    (fun w => decide (w.length ≤ gridSizeV ∧ 2 < w.length ∧
      ¬ w.contains glottal = true ∧ ¬ w.contains ' ' = true))

/-- `chosenWords` from src/vite.config.ts line 1574 — also the win set
(line 1575 stores it in `words` before any placement is attempted). -/
def viteChosen (shuffle : List (List Char) → List (List Char))
    (dict : List (List Char)) : List (List Char) :=
  (shuffle (insertionDedup [] (availableWordsV dict))).take 8

/-- The grid after the placement loop, before filling. -/
def vitePlaced (rand : Nat → Nat) (shuffle : List (List Char) → List (List Char))
    (dict : List (List Char)) : VGrid × Nat :=
  placeAllVite rand (viteChosen shuffle dict) (fun _ _ => none) 0

/-- The filled `finalGrid`. -/
def viteFill (rand : Nat → Nat) (shuffle : List (List Char) → List (List Char))
    (dict : List (List Char)) : (Nat → Nat → Char) × Nat :=
  fillVite rand cellList (vitePlaced rand shuffle dict).1
    (fun r c => ((vitePlaced rand shuffle dict).1 r c).getD 'A')
    (vitePlaced rand shuffle dict).2

/-- `setupGame` from src/vite.config.ts lines 1569-1627: the filled grid
and the win set `chosenWords`. -/
def setupGameVite (rand : Nat → Nat) (shuffle : List (List Char) → List (List Char))
    (dict : List (List Char)) : (Nat → Nat → Char) × List (List Char) :=
  ((viteFill rand shuffle dict).1, viteChosen shuffle dict)

theorem insertionDedup_subset :
    ∀ (l : List (List Char)) (seen : List (List Char)) (w : List Char),
      w ∈ insertionDedup seen l → w ∈ l := by
  intro l
  induction l with
  | nil => intro seen w hw; simp [insertionDedup] at hw
  | cons w0 ws ih =>
      intro seen w hw
      rw [insertionDedup] at hw
      by_cases hc : seen.contains w0
      · rw [if_pos hc] at hw
        exact List.mem_cons_of_mem _ (ih seen w hw)
      · rw [if_neg hc] at hw
        rcases List.mem_cons.mp hw with rfl | hmem
        · exact List.mem_cons_self _ _
        · exact List.mem_cons_of_mem _ (ih (w0 :: seen) w hmem)

/-- Every cell of the filled vite grid is either the accumulator's value or
one of the first `ALPHABET.length - 1` alphabet letters. -/
theorem fillVite_cases (rand : Nat → Nat) :
    ∀ (cells : List (Nat × Nat)) (g : VGrid) (acc : Nat → Nat → Char) (t r c : Nat),
      (fillVite rand cells g acc t).1 r c = acc r c ∨
      ∃ k, (fillVite rand cells g acc t).1 r c =
        ALPHABET.getD (k % (ALPHABET.length - 1)) 'A' := by
  intro cells
  induction cells with
  | nil => intro g acc t r c; left; rfl
  | cons rc rest ih =>
      intro g acc t r c
      rw [fillVite]
      cases hc : (g rc.1 rc.2) with
      | none =>
          rcases ih g _ (t + 1) r c with h | ⟨k, hk⟩
          · rw [h]
            by_cases hcell : r = rc.1 ∧ c = rc.2
            · right
              exact ⟨rand t, by rw [if_pos hcell]⟩
            · left
              rw [if_neg hcell]
          · right
            exact ⟨k, hk⟩
      | some y => exact ih g acc t r c

theorem alphabet_getD_ne_glottal (k : Nat) :
    ALPHABET.getD (k % (ALPHABET.length - 1)) 'A' ≠ glottal := by
  have hk : k % (ALPHABET.length - 1) < 15 := Nat.mod_lt _ (by decide)
  have hall : ∀ i < 15, ALPHABET.getD i 'A' ≠ glottal := by decide
  exact hall _ hk

/-- C4 (amended): the src/vite.config.ts filler draws from the alphabet
WITHOUT its last entry, so a randomly-filled cell (one empty after
placement) never holds the glottal stop; the src/index.tsx filler draws
from the full alphabet, and on the concrete run `gp4` the non-word cell
`(0, 5)` does hold the glottal stop. -/
theorem filler_exclusion_amended :
    (∀ (rand : Nat → Nat) (shuffle : List (List Char) → List (List Char))
        (dict : List (List Char)) (r c : Nat),
        (vitePlaced rand shuffle dict).1 r c = none →
        (setupGameVite rand shuffle dict).1 r c ≠ glottal) ∧
    ((gp4.1 0 5).wordRef = none ∧ (gp4.1 0 5).char = some glottal) := by
  constructor
  · intro rand shuffle dict r c hnone
    show (fillVite rand cellList (vitePlaced rand shuffle dict).1
        (fun r c => ((vitePlaced rand shuffle dict).1 r c).getD 'A')
        (vitePlaced rand shuffle dict).2).1 r c ≠ glottal
    rcases fillVite_cases rand cellList (vitePlaced rand shuffle dict).1
        (fun r c => ((vitePlaced rand shuffle dict).1 r c).getD 'A')
        (vitePlaced rand shuffle dict).2 r c with h | ⟨k, hk⟩
    · rw [h]
      show ((vitePlaced rand shuffle dict).1 r c).getD 'A' ≠ glottal
      rw [hnone]
      decide
    · rw [hk]
      exact alphabet_getD_ne_glottal k
  · exact ⟨rfl, rfl⟩

def dictEmpty : List (List Char) := []

/-- Witness for C4's amended theorem: with an empty dictionary nothing is
placed, cell `(0, 0)` is empty after placement, and the filled cell is not
the glottal stop. -/
theorem filler_exclusion_amended_witness :
    (setupGameVite rand4 id dictEmpty).1 0 0 ≠ glottal :=
  filler_exclusion_amended.1 rand4 id dictEmpty 0 0 rfl

/-- C3 (amended): the src/vite.config.ts packer degrades gracefully — for
ANY dictionary, however small its eligible pool, `setupGame` still returns
a filled grid and a win set of at most 8 words all drawn from the eligible
pool (given that the shuffle only rearranges its input); the src/index.tsx
packer instead refuses (returns no game) whenever the eligible pool has
fewer than `NUM_WORDS` words. -/
theorem insufficient_pool_graceful :
    (∀ (rand : Nat → Nat) (shuffle : List (List Char) → List (List Char))
        (dict : List (List Char)),
        (∀ l, ∀ w ∈ shuffle l, w ∈ l) →
        (setupGameVite rand shuffle dict).2.length ≤ 8 ∧
        ∀ w ∈ (setupGameVite rand shuffle dict).2, w ∈ availableWordsV dict) ∧
    (∀ (rand : Nat → Nat) (shuffle : List (List Char) → List (List Char))
        (dict : List (List Char)),
        (wordPool dict).length < NUM_WORDS → generateNewGame rand shuffle dict = none) := by
  constructor
  · intro rand shuffle dict hs
    constructor
    · show (viteChosen shuffle dict).length ≤ 8
      simp [viteChosen]
    · intro w hw
      have h1 : w ∈ shuffle (insertionDedup [] (availableWordsV dict)) :=
        List.take_subset _ _ hw
      have h2 := hs _ _ h1
      exact insertionDedup_subset _ _ _ h2
  · intro rand shuffle dict h
    unfold generateNewGame
    rw [if_pos h]

/-- Witness for C3's amended theorem: the vite part at a two-word
dictionary with the identity shuffle, the index part at a one-word pool. -/
theorem insufficient_pool_graceful_witness :
    (((setupGameVite rand4 id [['a','l','o']]).2.length ≤ 8 ∧
      ∀ w ∈ (setupGameVite rand4 id [['a','l','o']]).2,
        w ∈ availableWordsV [['a','l','o']]) ∧
     generateNewGame rand4 id dict1 = none) :=
  ⟨insufficient_pool_graceful.1 rand4 id [['a','l','o']] (fun _ _ hw => hw),
   insufficient_pool_graceful.2 rand4 id dict1 (by decide)⟩

def rand0 : Nat → Nat := fun _ => 0

def dictV : List (List Char) := [['a','l','o'], ['h','a','u']]

def wordHAU : List Char := ['H', 'A', 'U']

/-- Grid scan used by the C1 counterexample. -/
def gridHasChar (g : Nat → Nat → Char) (ch : Char) : Bool :=
  (List.range gridSizeV).any (fun r => (List.range gridSizeV).any (fun c => g r c == ch))

theorem gridHasChar_false (g : Nat → Nat → Char) (ch : Char)
    (h : gridHasChar g ch = false) :
    ∀ r c, r < gridSizeV → c < gridSizeV → g r c ≠ ch := by
  intro r c hr hc heq
  unfold gridHasChar at h
  rw [List.any_eq_false] at h
  have h1 : ((List.range gridSizeV).any (fun c' => g r c' == ch)) = false := by
    have := h _ (List.mem_range.mpr hr)
    simpa using this
  rw [List.any_eq_false] at h1
  have h2 := h1 _ (List.mem_range.mpr hc)
  apply h2
  simp [heq]

set_option maxRecDepth 4000 in
/-- C1 counterexample (src/vite.config.ts side): `setupGame` stores ALL
chosen words in the win set before attempting placement and never drops
one.  With the stream `rand0` the word "ALO" occupies cells `(0,0)-(0,2)`,
every one of "HAU"'s 50 attempts proposes the same conflicting run and is
rejected, and every filler is 'A'; yet "HAU" stays in the win set while no
cell of the grid even holds an 'H', so no start cell and direction read
"HAU" — the win set contains a word that was not successfully placed and
is not readable. -/
theorem vite_win_set_unreadable_cex :
    wordHAU ∈ (setupGameVite rand0 id dictV).2 ∧
    ¬ ∃ sr sc dr dc, ∀ j < wordHAU.length,
        sr + j * dr < gridSizeV ∧ sc + j * dc < gridSizeV ∧
        (setupGameVite rand0 id dictV).1 (sr + j * dr) (sc + j * dc) =
          wordHAU.getD j 'A' := by
  constructor
  · decide
  · rintro ⟨sr, sc, dr, dc, hread⟩
    have h0 := hread 0 (by decide)
    simp only [Nat.zero_mul, Nat.add_zero] at h0
    have hH : wordHAU.getD 0 'A' = 'H' := rfl
    rw [hH] at h0
    have hscan : gridHasChar (setupGameVite rand0 id dictV).1 'H' = false := by decide
    exact gridHasChar_false _ _ hscan sr sc h0.1 h0.2.1 h0.2.2

/-! ### Selection matching (src/index.tsx lines 1762-1803) -/

/-- `getSelectedWord` from src/index.tsx lines 1762-1765: selections of
fewer than 2 cells give the empty string; otherwise the selected cells'
characters are joined (a `null` char contributes nothing, as in
`Array.join`). -/
def getSelectedWord (g : Grid) (selection : List (Nat × Nat)) : List Char :=
  if selection.length < 2 then []
  else (selection.map (fun p => (g p.1 p.2).char)).reduceOption

/-- `handleMouseUp` from src/index.tsx lines 1792-1803, as a function from
the `(words, foundWords, selection)` state read by the handler to the new
`(foundWords, selection)` state: try the forward word, then the reversed
word, each against the win set minus the already-found words; always clear
the selection. -/
def handleMouseUp (g : Grid) (words foundWords : List (List Char))
    (selection : List (Nat × Nat)) : List (List Char) × List (Nat × Nat) :=
  if words.contains (getSelectedWord g selection) &&
      ! foundWords.contains (getSelectedWord g selection) then
    (foundWords ++ [getSelectedWord g selection], [])
  else if words.contains (getSelectedWord g selection).reverse &&
      ! foundWords.contains (getSelectedWord g selection).reverse then
    (foundWords ++ [(getSelectedWord g selection).reverse], [])
  else (foundWords, [])

/-- C7: releasing a selection marks the forward word found when it is a
not-yet-found win-set word; failing that, the reversed word under the same
test; otherwise the found-set is unchanged — and the selection is always
discarded. -/
theorem handleMouseUp_spec (g : Grid) (words found : List (List Char))
    (sel : List (Nat × Nat)) :
    (words.contains (getSelectedWord g sel) = true →
      found.contains (getSelectedWord g sel) = false →
      handleMouseUp g words found sel = (found ++ [getSelectedWord g sel], [])) ∧
    ((words.contains (getSelectedWord g sel) &&
        ! found.contains (getSelectedWord g sel)) = false →
      words.contains (getSelectedWord g sel).reverse = true →
      found.contains (getSelectedWord g sel).reverse = false →
      handleMouseUp g words found sel =
        (found ++ [(getSelectedWord g sel).reverse], [])) ∧
    ((words.contains (getSelectedWord g sel) &&
        ! found.contains (getSelectedWord g sel)) = false →
      (words.contains (getSelectedWord g sel).reverse &&
        ! found.contains (getSelectedWord g sel).reverse) = false →
      handleMouseUp g words found sel = (found, [])) := by
  refine ⟨?_, ?_, ?_⟩
  · intro h1 h2
    unfold handleMouseUp
    rw [h1, h2]
    simp
  · intro h1 h2 h3
    unfold handleMouseUp
    rw [h1, h2, h3]
    simp
  · intro h1 h2
    unfold handleMouseUp
    rw [h1, h2]
    simp

def gSel : Grid := fun r c =>
  if r = 0 ∧ c = 0 then ⟨some 'A', none⟩
  else if r = 0 ∧ c = 1 then ⟨some 'L', none⟩
  else if r = 0 ∧ c = 2 then ⟨some 'O', none⟩
  else ⟨some 'A', none⟩

def selALO : List (Nat × Nat) := [(0, 0), (0, 1), (0, 2)]

def wordALO : List Char := ['A', 'L', 'O']

def wordOLA : List Char := ['O', 'L', 'A']

/-- Witness for C7: tracing `(0,0)-(0,2)` on a grid spelling "ALO" marks
the win-set word "ALO" found. -/
theorem handleMouseUp_spec_witness :
    handleMouseUp gSel [wordALO] [] selALO = ([] ++ [getSelectedWord gSel selALO], []) :=
  (handleMouseUp_spec gSel [wordALO] [] selALO).1 (by decide) (by decide)

/-- C8 counterexample: the claim "re-running the selection-matching
operation on a selection spelling an already-found word leaves the
found-set unchanged" fails when the REVERSAL of that selection spells a
distinct not-yet-found win-set word: with win set {"ALO", "OLA"} and "ALO"
already found, re-selecting the cells spelling "ALO" marks "OLA" found,
changing the found-set. -/
theorem refind_changes_cex :
    getSelectedWord gSel selALO = wordALO ∧
    wordALO ∈ ([wordALO, wordOLA] : List (List Char)) ∧
    (handleMouseUp gSel [wordALO, wordOLA] [wordALO] selALO).1 ≠ [wordALO] := by
  refine ⟨by decide, by decide, by decide⟩

/-- C8 (amended): when the selection spells an already-found word, the
operation never re-adds that word (its multiplicity in the found-set is
unchanged) and does not throw; the found-set is left entirely unchanged
unless the selection's reversal spells a distinct not-yet-found win-set
word, in which case exactly that reversed word is appended. -/
theorem refind_idempotent_amended (g : Grid) (words found : List (List Char))
    (sel : List (Nat × Nat)) (h : found.contains (getSelectedWord g sel) = true) :
    ((handleMouseUp g words found sel).1 = found ∨
      ((handleMouseUp g words found sel).1 =
          found ++ [(getSelectedWord g sel).reverse] ∧
        words.contains (getSelectedWord g sel).reverse = true ∧
        found.contains (getSelectedWord g sel).reverse = false)) ∧
    (handleMouseUp g words found sel).1.count (getSelectedWord g sel) =
      found.count (getSelectedWord g sel) := by
  have h1 : (words.contains (getSelectedWord g sel) &&
      ! found.contains (getSelectedWord g sel)) = false := by
    rw [h]
    simp
  unfold handleMouseUp
  rw [h1]
  simp only [Bool.false_eq_true, if_false]
  by_cases h2 : (words.contains (getSelectedWord g sel).reverse &&
      ! found.contains (getSelectedWord g sel).reverse) = true
  · rw [if_pos h2]
    obtain ⟨h2w, h2f⟩ := Bool.and_eq_true_iff.mp h2
    have h2f' : found.contains (getSelectedWord g sel).reverse = false := by
      simpa using h2f
    have hne : (getSelectedWord g sel).reverse ≠ getSelectedWord g sel := by
      intro he
      rw [he] at h2f'
      rw [h] at h2f'
      cases h2f'
    constructor
    · exact Or.inr ⟨rfl, h2w, h2f'⟩
    · rw [List.count_append]
      simp [List.count_singleton, hne]
  · rw [if_neg h2]
    exact ⟨Or.inl rfl, rfl⟩

/-- Witness for C8's amended theorem: re-selecting "ALO" when it is the
only word and already found changes nothing. -/
theorem refind_idempotent_amended_witness :
    ((handleMouseUp gSel [wordALO] [wordALO] selALO).1 = [wordALO] ∨
      ((handleMouseUp gSel [wordALO] [wordALO] selALO).1 =
          [wordALO] ++ [(getSelectedWord gSel selALO).reverse] ∧
        ([wordALO] : List (List Char)).contains (getSelectedWord gSel selALO).reverse = true ∧
        ([wordALO] : List (List Char)).contains (getSelectedWord gSel selALO).reverse = false)) ∧
    (handleMouseUp gSel [wordALO] [wordALO] selALO).1.count (getSelectedWord gSel selALO) =
      ([wordALO] : List (List Char)).count (getSelectedWord gSel selALO) :=
  refind_idempotent_amended gSel [wordALO] [wordALO] selALO (by decide)

end DICOV2
